import Mathlib

/-!
Verification development for the console-error-monitor crawler
(`src/console-error-monitor-update.js`).

Strings are modelled as `List Char` (`Str`).  JavaScript truthiness of a
string (`s || 'unknown'`) is modelled explicitly: an absent field is
`none`, and the empty string is falsy.  The pieces embedded here are:

* `getErrorSignature` (lines 25–28 of the source),
* the console-message classifier installed in `processUrl`
  (lines 105–125) and the `pageerror` listener (lines 127–134),
* the error-group aggregation (lines 152–164),
* the retry loop of `processUrl` (lines 62–201), driven by an
  environment `env : Nat → Attempt` giving the outcome of each
  navigation attempt,
* the chunking / batching scheduler of `processUrls` (lines 204–260),
  with the per-session browser lifecycle recorded as a trace of actions.
-/

namespace CEM

abbrev Str := List Char

/-- `isPre p s` is true iff `p` is an initial segment of `s`. -/
def isPre : Str → Str → Bool
  | [], _ => true
  | _ :: _, [] => false
  | a :: p, b :: s => a == b && isPre p s

/-- `hasSub n h` models JavaScript `h.includes(n)`: `n` occurs as a
contiguous substring of `h`. -/
def hasSub (n : Str) : Str → Bool
  | [] => isPre n []
  | c :: t => isPre n (c :: t) || hasSub n t

/-- A normalized diagnostic record, as pushed into the `errors` array of
`processUrl`: the message text, the optional `location.url` field, and
the event type (`'error'`, `'pageerror'`, ...). -/
structure DiagRecord where
  text : Str
  locationUrl : Option Str
  kind : Str
deriving DecidableEq, Repr

def unknownLoc : Str := "unknown".data

def sigSep : Str := "|||".data

/-- JavaScript `error.location?.url || 'unknown'`: an absent location
field or an empty (falsy) url string yields the `'unknown'` placeholder. -/
def effLoc : Option Str → Str
  | some u => if u = [] then unknownLoc else u
  | none => unknownLoc

/-- Source lines 25–28: `` `${error.text}|||${location}` ``. -/
def getErrorSignature (e : DiagRecord) : Str :=
  e.text ++ sigSep ++ effLoc e.locationUrl

/-! ## Diagnostic classifier (console listener, lines 105–125) -/

def errFailedTok : Str := "net::ERR_FAILED".data

def errAbortedTok : Str := "net::ERR_ABORTED".data

/-- Source line 112: the text indicates a deliberately aborted resource
load. -/
def abortSignal (t : Str) : Bool :=
  hasSub errFailedTok t || hasSub errAbortedTok t

def corsTok : Str := "Cross-Origin Request Blocked".data

def coveoTok : Str := "ReferenceError: coveoua".data

/-- Source line 116: the regex `/Cross-Origin Request Blocked|ReferenceError: coveoua/`
tested against the message text. -/
def knownPattern (t : Str) : Bool :=
  hasSub corsTok t || hasSub coveoTok t

def errorType : Str := "error".data

def pageerrorType : Str := "pageerror".data

/-- The body of the console listener once `type`/`text`/`location` have
been extracted (source lines 110–123). -/
def classifyConsole (ty tx : Str) (loc : Option Str) : Option DiagRecord :=
  if abortSignal tx then none
  else if ty = errorType ∨ knownPattern tx = true then some ⟨tx, loc, ty⟩
  else none

/-- One raw console-message event.  `broken` stands for an event whose
field extraction (`msg.type()` / `msg.text()` / `msg.location?.()`)
throws. -/
inductive ConsoleEvent where
  | ok (ty tx : Str) (loc : Option Str)
  | broken
deriving DecidableEq, Repr

/-- Field extraction from a raw console event; a malformed event makes
it throw (source lines 107–108 inside the `try`). -/
def consoleExtract : ConsoleEvent → Except Unit (Str × Str × Option Str)
  | .ok ty tx loc => .ok (ty, tx, loc)
  | .broken => .error ()

/-- The whole console listener with its `try { ... } catch (e) { /* ignore */ }`
wrapper (source lines 106–124): a throwing extraction drops the event. -/
def handleConsole (ev : ConsoleEvent) : Option DiagRecord :=
  match consoleExtract ev with
  | .ok (ty, tx, loc) => classifyConsole ty tx loc
  | .error _ => none

/-- One raw browser event observed while a page loads: a console
message, or an uncaught exception (`pageerror`). -/
inductive RawEvent where
  | console (ev : ConsoleEvent)
  | uncaught (msg : Str)
deriving DecidableEq, Repr

/-- The `pageerror` listener (source lines 127–134) always pushes a
record carrying the exception message and no location field. -/
def uncaughtRecord (msg : Str) : DiagRecord :=
  ⟨msg, none, pageerrorType⟩

def classifyEvent : RawEvent → Option DiagRecord
  | .console ev => handleConsole ev
  | .uncaught msg => some (uncaughtRecord msg)

/-- The `errors` array accumulated by the listeners over the events of
one attempt. -/
def collectErrors (evs : List RawEvent) : List DiagRecord :=
  evs.filterMap classifyEvent

/-! ## Error-group aggregation (source lines 152–164) -/

/-- One entry of `this.errorGroups`. -/
structure Group where
  signature : Str
  errorText : Str
  errorLocation : Str
  pages : List Str
  sample : DiagRecord
deriving DecidableEq, Repr

/-- `this.errorGroups`, as a map from signature to group. -/
def Groups := Str → Option Group

def emptyGroups : Groups := fun _ => none

/-- JavaScript `Set.prototype.add`: append if absent. -/
def addPage (pages : List Str) (u : Str) : List Str :=
  if u ∈ pages then pages else pages ++ [u]

/-- The body of the `errors.forEach` callback (source lines 152–164):
create the group on first encounter of the signature, then add the page
url to its page set. -/
def ingestOne (url : Str) (g : Groups) (e : DiagRecord) : Groups :=
  let s := getErrorSignature e
  let grp :=
    match g s with
    | some grp => grp
    | none =>
        { signature := s, errorText := e.text, errorLocation := effLoc e.locationUrl,
          pages := [], sample := e }
  let grp' := { grp with pages := addPage grp.pages url }
  fun s' => if s' = s then some grp' else g s'

/-- `errors.forEach(error => ...)` over one page's diagnostic list. -/
def ingestAll (url : Str) (g : Groups) (errors : List DiagRecord) : Groups :=
  errors.foldl (ingestOne url) g

/-- A whole run's sequence of aggregation calls: one `(url, diagnostics)`
pair per successfully scanned page, ingested in order starting from the
empty map. -/
def ingestTrace (calls : List (Str × List DiagRecord)) : Groups :=
  calls.foldl (fun g c => ingestAll c.1 g c.2) emptyGroups

/-! ## The retry loop of `processUrl` (source lines 58–202) -/

/-- The outcome the environment gives one navigation attempt: either the
navigation (and settle delay) completes and the listeners saw `events`,
or it throws an error whose message is `msg`. -/
inductive Attempt where
  | nav_ok (events : List RawEvent)
  | nav_fail (msg : Str)
deriving DecidableEq, Repr

/-- Source line 173: the thrown message indicates a policy-induced abort
of the primary document. -/
def abortNav (msg : Str) : Bool :=
  hasSub errAbortedTok msg || hasSub errFailedTok msg

def blockedReason : Str := "Resource blocked (PDF/Font)".data

/-- The `this.pageErrors` entry written for a url (`scannedAt` omitted:
wall-clock time is outside the model). -/
structure PageRecord where
  url : Str
  errorCount : Nat
  errors : List DiagRecord
  success : Bool
  failureReason : Option Str
deriving DecidableEq, Repr

/-- The object returned by `processUrl`. -/
structure RetVal where
  url : Str
  success : Bool
  errorCount : Option Nat
  error : Option Str
deriving DecidableEq, Repr

/-- Everything one call of `processUrl` produces: the stored
`pageErrors` entry, the returned value, the updated error groups, the
number of navigation attempts performed, and the backoff delays (in ms)
awaited between attempts. -/
structure UrlOutcome where
  record : PageRecord
  retVal : RetVal
  groups : Groups
  attempts : Nat
  delays : List Nat

/-- Success path, source lines 144–167. -/
def successOutcome (url : Str) (g : Groups) (attemptIdx : Nat)
    (evs : List RawEvent) : UrlOutcome :=
  let errors := collectErrors evs
  { record := ⟨url, errors.length, errors, true, none⟩
    retVal := ⟨url, true, some errors.length, none⟩
    groups := ingestAll url g errors
    attempts := attemptIdx + 1
    delays := [] }

/-- Policy-induced-abort path, source lines 173–183. -/
def abortOutcome (url : Str) (g : Groups) (attemptIdx : Nat) : UrlOutcome :=
  { record := ⟨url, 0, [], true, some blockedReason⟩
    retVal := ⟨url, true, some 0, none⟩
    groups := g
    attempts := attemptIdx + 1
    delays := [] }

/-- Retries-exhausted path, source lines 185–197. -/
def failOutcome (url : Str) (g : Groups) (attemptIdx : Nat) (msg : Str) : UrlOutcome :=
  { record := ⟨url, 0, [], false, some msg⟩
    retVal := ⟨url, false, none, some msg⟩
    groups := g
    attempts := attemptIdx + 1
    delays := [] }

/-- The body of one iteration of the `while (retries <= retryLimit)`
loop (source lines 63–200): a completed navigation stores the success
record, a policy-abort message stores the reclassified success record,
and any other thrown error is handed to `onFail` (give up, or back off
and retry). -/
def processUrlStep (env : Nat → Attempt) (url : Str) (g : Groups)
    (attemptIdx : Nat) (onFail : Str → UrlOutcome) : UrlOutcome :=
  match env attemptIdx with
  | .nav_ok evs => successOutcome url g attemptIdx evs
  | .nav_fail msg =>
    if abortNav msg then abortOutcome url g attemptIdx
    else onFail msg

/-- The `while (retries <= this.config.retryLimit)` loop.  `attemptIdx`
is the current value of `retries`; `remaining` is the number of attempts
still allowed, i.e. `retryLimit + 1 - retries`.  The source's
`if (++retries > this.config.retryLimit)` test is exactly
`remaining ≤ 1` (the `0` case is unreachable since the loop starts with
`remaining = retryLimit + 1`).  The backoff
`setTimeout(..., 1000 * retries)` executed after the increment
contributes a delay of `1000 * (attemptIdx + 1)` before the next
attempt. -/
def processUrlGo (env : Nat → Attempt) (url : Str) (g : Groups) :
    Nat → Nat → UrlOutcome
  | attemptIdx, 0 => processUrlStep env url g attemptIdx (failOutcome url g attemptIdx)
  | attemptIdx, 1 => processUrlStep env url g attemptIdx (failOutcome url g attemptIdx)
  | attemptIdx, r + 2 =>
    processUrlStep env url g attemptIdx (fun _ =>
      let rest := processUrlGo env url g (attemptIdx + 1) (r + 1)
      { rest with delays := 1000 * (attemptIdx + 1) :: rest.delays })

/-- `processUrl` for a given retry limit: start at `retries = 0` with
`retryLimit + 1` attempts allowed. -/
def processUrl (retryLimit : Nat) (env : Nat → Attempt) (url : Str)
    (g : Groups) : UrlOutcome :=
  processUrlGo env url g 0 (retryLimit + 1)

/-! ## Chunking and batching (`processUrls`, source lines 204–260) -/

/-- The slicing loop
`for (let i = 0; i < urls.length; i += n) chunks.push(urls.slice(i, i + n))`,
used both for the browser-rotation chunks (size 50, line 209) and for
the concurrency batches (size `maxConcurrent`, line 233).  The slice
step `n` is positive at every call site (`BROWSER_ROTATION_LIMIT = 50`;
`config.maxConcurrent || 10`); the `0` case is unreachable. -/
def chunksOf {α : Type} : Nat → List α → List (List α)
  | _, [] => []
  | 0, _ :: _ => []
  | n + 1, x :: xs => ((x :: xs).take (n + 1)) :: chunksOf (n + 1) ((x :: xs).drop (n + 1))
termination_by _ l => l.length
decreasing_by
  simp [List.length_drop]
  omega

/-- Observable scheduling actions of one browser-session chunk. -/
inductive BatchAction where
  | task (url : Str)
  | cooldown
deriving DecidableEq, Repr

/-- The batch loop (source lines 237–250): each batch maps every url to
its settled result (`Promise.allSettled` — one settled value per url,
independent of its siblings), and a 1000 ms cooldown separates
consecutive batches (`if (i < batches.length - 1)`). -/
def runBatches (resOf : Str → RetVal) : List (List Str) → List RetVal × List BatchAction
  | [] => ([], [])
  | [b] => (b.map resOf, b.map .task)
  | b :: b' :: rest =>
    let out := runBatches resOf (b' :: rest)
    (b.map resOf ++ out.1, b.map .task ++ .cooldown :: out.2)

/-- One session chunk: partition into batches of `maxConcurrent` and run
them in order. -/
def runChunk (maxConcurrent : Nat) (resOf : Str → RetVal) (chunk : List Str) :
    List RetVal × List BatchAction :=
  runBatches resOf (chunksOf maxConcurrent chunk)

def BROWSER_ROTATION_LIMIT : Nat := 50

/-- Observable actions of the session loop: launching browser instance
`i`, feeding it one url, closing it. -/
inductive SessAction where
  | launch (i : Nat)
  | fed (i : Nat) (url : Str)
  | close (i : Nat)
deriving DecidableEq, Repr

/-- Behaviour of the `try` body of one session (source lines 231–251):
either the whole chunk is processed, or an unexpected error is thrown
after some of the chunk's urls (in batch order, hence a prefix) were
fed to the browser; the `catch` only logs it. -/
inductive ChunkBeh where
  | ok
  | throwAfter (k : Nat)
deriving DecidableEq, Repr

/-- The urls actually fed to the browser instance of a chunk under a
given behaviour. -/
def chunkFeds (chunk : List Str) : ChunkBeh → List Str
  | .ok => chunk
  | .throwAfter k => chunk.take k

/-- The trace of one session (source lines 215–256): launch a fresh
browser, feed it the executed part of its chunk, and close it in the
`finally` block — also when the body threw. -/
def sessionTrace (i : Nat) (chunk : List Str) (beh : ChunkBeh) : List SessAction :=
  .launch i :: (chunkFeds chunk beh).map (.fed i) ++ [.close i]

/-- The `for (let chunkIndex = 0; ...)` session loop (source lines
215–257): one session per chunk, in order. -/
def sessionLoop (behs : Nat → ChunkBeh) : Nat → List (List Str) → List SessAction
  | _, [] => []
  | i, c :: cs => sessionTrace i c (behs i) ++ sessionLoop behs (i + 1) cs

/-- The full session loop of `processUrls`: one session per chunk of at
most `BROWSER_ROTATION_LIMIT` urls. -/
def processUrlsTrace (urls : List Str) (behs : Nat → ChunkBeh) : List SessAction :=
  sessionLoop behs 0 (chunksOf BROWSER_ROTATION_LIMIT urls)

/-- Recognizes the feed actions of browser instance `i` in a session
trace. -/
def isFedTo (i : Nat) : SessAction → Bool
  | .fed j _ => j == i
  | _ => false

/-- The urls passed to the aggregation calls of a run. -/
def ingestedUrls (calls : List (Str × List DiagRecord)) : List Str :=
  calls.map Prod.fst

/-- All diagnostics of a run, in ingestion order. -/
def ingestedDiags (calls : List (Str × List DiagRecord)) : List DiagRecord :=
  calls.flatMap Prod.snd

/-- The first diagnostic of a list whose signature is `sig`. -/
def firstDiagWith (sig : Str) (l : List DiagRecord) : Option DiagRecord :=
  l.find? (fun e => getErrorSignature e == sig)

/-! ## Theorems -/

theorem sigSep_eq : sigSep = '|' :: '|' :: '|' :: [] := rfl

/-- Splitting at the `'|||'` separator is unambiguous as soon as the two
text fields contain no `'|'` character. -/
theorem sep_append_inj :
    ∀ t1 t2 l1 l2 : Str, '|' ∉ t1 → '|' ∉ t2 →
      t1 ++ sigSep ++ l1 = t2 ++ sigSep ++ l2 → t1 = t2 ∧ l1 = l2 := by
  intro t1
  induction t1 with
  | nil =>
    intro t2 l1 l2 _ h2 h
    cases t2 with
    | nil =>
      refine ⟨rfl, ?_⟩
      simpa using h
    | cons b t2' =>
      exfalso
      rw [sigSep_eq] at h
      simp only [List.nil_append, List.cons_append] at h
      apply h2
      rw [List.mem_cons]
      left
      exact (List.cons.injEq _ _ _ _ ▸ h).1
  | cons a t1' ih =>
    intro t2 l1 l2 h1 h2 h
    cases t2 with
    | nil =>
      exfalso
      rw [sigSep_eq] at h
      simp only [List.nil_append, List.cons_append] at h
      apply h1
      rw [List.mem_cons]
      left
      exact (List.cons.injEq _ _ _ _ ▸ h).1.symm
    | cons b t2' =>
      simp only [List.cons_append] at h
      have hab : a = b := (List.cons.injEq _ _ _ _ ▸ h).1
      have htl : t1' ++ sigSep ++ l1 = t2' ++ sigSep ++ l2 :=
        (List.cons.injEq _ _ _ _ ▸ h).2
      have h1' : '|' ∉ t1' := fun hm => h1 (List.mem_cons_of_mem _ hm)
      have h2' : '|' ∉ t2' := fun hm => h2 (List.mem_cons_of_mem _ hm)
      obtain ⟨he, hl⟩ := ih t2' l1 l2 h1' h2' htl
      exact ⟨by rw [hab, he], hl⟩

/-- C1 (corrected).  The claimed equivalence fails on the code because
the separator `'|||'` can arise from field content and because an
absent location is indistinguishable from the literal location
`'unknown'`.  The repaired statement: when neither record's text
contains the `'|'` character, signatures agree exactly when the texts
agree and the effective locations (absent or empty mapped to
`'unknown'`) agree. -/
theorem c1_signature_eq_iff (r1 r2 : DiagRecord)
    (h1 : '|' ∉ r1.text) (h2 : '|' ∉ r2.text) :
    getErrorSignature r1 = getErrorSignature r2 ↔
      r1.text = r2.text ∧ effLoc r1.locationUrl = effLoc r2.locationUrl := by
  constructor
  · intro h
    exact sep_append_inj r1.text r2.text _ _ h1 h2 h
  · rintro ⟨ha, hb⟩
    unfold getErrorSignature
    rw [ha, hb]

/-- C1 witness: the corrected equivalence applied to two concrete
pipe-free records with distinct locations. -/
theorem c1_signature_eq_iff_witness :
    ('|' ∉ (⟨"a".data, some "x".data, "error".data⟩ : DiagRecord).text) ∧
      (getErrorSignature ⟨"a".data, some "x".data, "error".data⟩ =
          getErrorSignature ⟨"a".data, some "y".data, "error".data⟩ ↔
        ("a".data : Str) = "a".data ∧
          effLoc (some "x".data) = effLoc (some "y".data)) :=
  ⟨by decide,
    c1_signature_eq_iff ⟨"a".data, some "x".data, "error".data⟩
      ⟨"a".data, some "y".data, "error".data⟩ (by decide) (by decide)⟩

/-- C1 counterexample: two records with different texts and different
locations whose signatures coincide, because `'|'` characters in the
fields recombine with the `'|||'` separator. -/
theorem c1_counterexample :
    getErrorSignature ⟨"a|".data, some "||b".data, "error".data⟩ =
        getErrorSignature ⟨"a||".data, some "|b".data, "error".data⟩ ∧
      (⟨"a|".data, some "||b".data, "error".data⟩ : DiagRecord).text ≠
        (⟨"a||".data, some "|b".data, "error".data⟩ : DiagRecord).text ∧
      (⟨"a|".data, some "||b".data, "error".data⟩ : DiagRecord).locationUrl ≠
        (⟨"a||".data, some "|b".data, "error".data⟩ : DiagRecord).locationUrl := by
  refine ⟨?_, by decide, by decide⟩
  decide

/-- Every exit of the retry loop stores one of the three terminal page
records: the success record, the policy-abort record, or the
retries-exhausted record. -/
theorem processUrlGo_record_shape (env : Nat → Attempt) (url : Str) (g : Groups) :
    ∀ remaining attemptIdx,
      (∃ errors : List DiagRecord,
          (processUrlGo env url g attemptIdx remaining).record =
            ⟨url, errors.length, errors, true, none⟩) ∨
      ((processUrlGo env url g attemptIdx remaining).record =
          ⟨url, 0, [], true, some blockedReason⟩) ∨
      (∃ msg, (processUrlGo env url g attemptIdx remaining).record =
          ⟨url, 0, [], false, some msg⟩) := by
  intro remaining
  induction remaining with
  | zero =>
    intro attemptIdx
    cases henv : env attemptIdx with
    | nav_ok evs =>
      left
      exact ⟨collectErrors evs, by simp [processUrlGo, processUrlStep, henv, successOutcome]⟩
    | nav_fail msg =>
      by_cases hab : abortNav msg
      · right; left
        simp [processUrlGo, processUrlStep, henv, hab, abortOutcome]
      · right; right
        exact ⟨msg, by simp [processUrlGo, processUrlStep, henv, hab, failOutcome]⟩
  | succ r ih =>
    intro attemptIdx
    cases henv : env attemptIdx with
    | nav_ok evs =>
      left
      exact ⟨collectErrors evs, by
        cases r <;> simp [processUrlGo, processUrlStep, henv, successOutcome]⟩
    | nav_fail msg =>
      by_cases hab : abortNav msg
      · right; left
        cases r <;> simp [processUrlGo, processUrlStep, henv, hab, abortOutcome]
      · cases r with
        | zero =>
          right; right
          exact ⟨msg, by simp [processUrlGo, processUrlStep, henv, hab, failOutcome]⟩
        | succ r' =>
          have := ih (attemptIdx + 1)
          simpa [processUrlGo, processUrlStep, henv, hab] using this

/-- C2 (corrected).  On every exit path, a failed page record has an
empty diagnostics list and a failure reason; a successful record has no
failure reason, except on the policy-induced-abort path where it
carries the informational reason `"Resource blocked (PDF/Font)"`
although `success` is true. -/
theorem c2_record_invariant (rL : Nat) (env : Nat → Attempt) (url : Str) (g : Groups) :
    ((processUrl rL env url g).record.success = false →
        (processUrl rL env url g).record.errors = [] ∧
        (processUrl rL env url g).record.failureReason.isSome = true) ∧
    ((processUrl rL env url g).record.success = true →
        (processUrl rL env url g).record.failureReason = none ∨
        (processUrl rL env url g).record.failureReason = some blockedReason) := by
  rcases processUrlGo_record_shape env url g (rL + 1) 0 with ⟨errors, h⟩ | h | ⟨msg, h⟩ <;>
    rw [processUrl] at * <;> rw [h] <;> constructor <;> intro hs <;> simp_all

/-- C2 witness: the invariant applied on the retries-exhausted path and
on the success path. -/
theorem c2_record_invariant_witness :
    ((processUrl 2 (fun _ => .nav_fail "boom".data) "u".data emptyGroups).record.errors = [] ∧
      (processUrl 2 (fun _ => .nav_fail "boom".data) "u".data
          emptyGroups).record.failureReason.isSome = true) ∧
    ((processUrl 2 (fun _ => .nav_ok []) "u".data emptyGroups).record.failureReason = none ∨
      (processUrl 2 (fun _ => .nav_ok []) "u".data emptyGroups).record.failureReason =
        some blockedReason) :=
  ⟨(c2_record_invariant 2 (fun _ => .nav_fail "boom".data) "u".data emptyGroups).1 (by decide),
    (c2_record_invariant 2 (fun _ => .nav_ok []) "u".data emptyGroups).2 (by decide)⟩

/-- C2 counterexample: a navigation rejected with a policy-abort message
stores a record with `success = true` and a non-null `failureReason`,
refuting the claim that success implies a null failure reason. -/
theorem c2_counterexample :
    (processUrl 2 (fun _ => .nav_fail "net::ERR_ABORTED".data) "u".data
        emptyGroups).record.success = true ∧
      (processUrl 2 (fun _ => .nav_fail "net::ERR_ABORTED".data) "u".data
          emptyGroups).record.failureReason ≠ none := by
  constructor
  · decide
  · decide

/-- If attempts before attempt `i` were retryable failures and attempt
`i` throws a policy-abort message (while retries remain), the loop stops
at attempt `i` with the reclassified success outcome and untouched
groups. -/
theorem processUrlGo_abort (env : Nat → Attempt) (url : Str) (g : Groups) :
    ∀ remaining attemptIdx i msg,
      attemptIdx ≤ i → i < attemptIdx + remaining →
      (∀ j, attemptIdx ≤ j → j < i → ∃ m, env j = .nav_fail m ∧ abortNav m = false) →
      env i = .nav_fail msg → abortNav msg = true →
      (processUrlGo env url g attemptIdx remaining).record =
          ⟨url, 0, [], true, some blockedReason⟩ ∧
        (processUrlGo env url g attemptIdx remaining).retVal = ⟨url, true, some 0, none⟩ ∧
        (processUrlGo env url g attemptIdx remaining).groups = g ∧
        (processUrlGo env url g attemptIdx remaining).attempts = i + 1 := by
  intro remaining
  induction remaining with
  | zero =>
    intro attemptIdx i msg h1 h2 _ _ _
    omega
  | succ r ih =>
    intro attemptIdx i msg h1 h2 hprev henvi hab
    rcases Nat.eq_or_lt_of_le h1 with heq | hlt
    · subst heq
      cases r <;> simp [processUrlGo, processUrlStep, henvi, hab, abortOutcome]
    · obtain ⟨m, hm, hmab⟩ := hprev attemptIdx (Nat.le_refl _) hlt
      cases r with
      | zero => omega
      | succ r' =>
        have ihres := ih (attemptIdx + 1) i msg hlt (by omega)
          (fun j hj1 hj2 => hprev j (by omega) hj2) henvi hab
        simpa [processUrlGo, processUrlStep, hm, hmab] using ihres

/-- C3 (confirmed).  A navigation attempt that fails with a
policy-abort message (the crawler blocked the primary resource, e.g. a
PDF) makes `processUrl` terminate at that attempt with a successful,
diagnostic-free stored record, a successful return value, and untouched
error groups — the outcome is not surfaced as a failure. -/
theorem c3_policy_abort (rL : Nat) (env : Nat → Attempt) (url : Str) (g : Groups)
    (i : Nat) (msg : Str) (hi : i ≤ rL)
    (hprev : ∀ j, j < i → ∃ m, env j = .nav_fail m ∧ abortNav m = false)
    (hcur : env i = .nav_fail msg) (hab : abortNav msg = true) :
    (processUrl rL env url g).record = ⟨url, 0, [], true, some blockedReason⟩ ∧
      (processUrl rL env url g).retVal = ⟨url, true, some 0, none⟩ ∧
      (processUrl rL env url g).groups = g ∧
      (processUrl rL env url g).attempts = i + 1 :=
  processUrlGo_abort env url g (rL + 1) 0 i msg (Nat.zero_le _) (by omega)
    (fun j _ hj2 => hprev j hj2) hcur hab

/-- C3 witness: a first attempt rejected with a blocked-PDF message. -/
theorem c3_policy_abort_witness :
    (processUrl 2 (fun _ => .nav_fail "net::ERR_ABORTED at pdf".data) "u".data
        emptyGroups).record = ⟨"u".data, 0, [], true, some blockedReason⟩ ∧
      (processUrl 2 (fun _ => .nav_fail "net::ERR_ABORTED at pdf".data) "u".data
          emptyGroups).retVal = ⟨"u".data, true, some 0, none⟩ ∧
      (processUrl 2 (fun _ => .nav_fail "net::ERR_ABORTED at pdf".data) "u".data
          emptyGroups).groups = emptyGroups ∧
      (processUrl 2 (fun _ => .nav_fail "net::ERR_ABORTED at pdf".data) "u".data
          emptyGroups).attempts = 0 + 1 :=
  c3_policy_abort 2 (fun _ => .nav_fail "net::ERR_ABORTED at pdf".data) "u".data
    emptyGroups 0 "net::ERR_ABORTED at pdf".data (by omega)
    (fun j hj => absurd hj (by omega)) rfl (by decide)

/-- When every allowed attempt fails with a retryable (non-abort)
message, the loop performs all its attempts, backing off
`1000 * attemptNumber` ms after each failed attempt, and stores the
terminal failure record carrying the last message, with the groups
untouched and no diagnostics kept. -/
theorem processUrlGo_all_fail (env : Nat → Attempt) (url : Str) (g : Groups)
    (msgs : Nat → Str) :
    ∀ remaining attemptIdx, 0 < remaining →
      (∀ j, attemptIdx ≤ j → j < attemptIdx + remaining →
          env j = .nav_fail (msgs j) ∧ abortNav (msgs j) = false) →
      processUrlGo env url g attemptIdx remaining =
        { record := ⟨url, 0, [], false, some (msgs (attemptIdx + remaining - 1))⟩
          retVal := ⟨url, false, none, some (msgs (attemptIdx + remaining - 1))⟩
          groups := g
          attempts := attemptIdx + remaining
          delays := (List.range (remaining - 1)).map (fun k => 1000 * (attemptIdx + 1 + k)) } := by
  intro remaining
  induction remaining with
  | zero =>
    intro attemptIdx h
    omega
  | succ r ih =>
    intro attemptIdx _ h
    obtain ⟨henv, hab⟩ := h attemptIdx (Nat.le_refl _) (by omega)
    cases r with
    | zero =>
      simp [processUrlGo, processUrlStep, henv, hab, failOutcome]
    | succ r' =>
      have ihres := ih (attemptIdx + 1) (by omega) (fun j hj1 hj2 => h j (by omega) (by omega))
      simp only [processUrlGo, processUrlStep, henv, hab, Bool.false_eq_true, if_false, ihres]
      have hidx : attemptIdx + 1 + (r' + 1) - 1 = attemptIdx + (r' + 1 + 1) - 1 := by omega
      have hatt : attemptIdx + 1 + (r' + 1) = attemptIdx + (r' + 1 + 1) := by omega
      rw [hidx, hatt]
      have hdel :
          1000 * (attemptIdx + 1) ::
              (List.range (r' + 1 - 1)).map (fun k => 1000 * (attemptIdx + 1 + 1 + k)) =
            (List.range (r' + 1 + 1 - 1)).map (fun k => 1000 * (attemptIdx + 1 + k)) := by
        simp only [Nat.add_sub_cancel, List.range_succ_eq_map, List.map_cons, List.map_map]
        congr 1
        apply List.map_congr_left
        intro k _
        simp only [Function.comp_apply]
        omega
      rw [hdel]

/-- C4 (confirmed).  When every attempt up to the retry limit fails
with a retryable message, `processUrl` performs exactly
`retryLimit + 1` navigation attempts, waits `1000 * attemptNumber` ms
after each failed attempt but the last, and produces exactly one
terminal outcome: a failed record whose reason is the last error's
message, with an empty diagnostics list and untouched error groups
(each attempt restarted from an empty list, so no partial diagnostics
survive). -/
theorem c4_retries_exhausted (rL : Nat) (env : Nat → Attempt) (url : Str)
    (g : Groups) (msgs : Nat → Str)
    (h : ∀ j, j ≤ rL → env j = .nav_fail (msgs j) ∧ abortNav (msgs j) = false) :
    processUrl rL env url g =
      { record := ⟨url, 0, [], false, some (msgs rL)⟩
        retVal := ⟨url, false, none, some (msgs rL)⟩
        groups := g
        attempts := rL + 1
        delays := (List.range rL).map (fun k => 1000 * (k + 1)) } := by
  have hmain := processUrlGo_all_fail env url g msgs (rL + 1) 0 (by omega)
    (fun j _ hj2 => h j (by omega))
  rw [processUrl, hmain]
  have h1 : 0 + (rL + 1) - 1 = rL := by omega
  have h2 : 0 + (rL + 1) = rL + 1 := by omega
  have h3 : rL + 1 - 1 = rL := by omega
  rw [h1, h2, h3]
  have h4 : ((List.range rL).map fun k => 1000 * (0 + 1 + k)) =
      (List.range rL).map fun k => 1000 * (k + 1) := by
    apply List.map_congr_left
    intro k _
    omega
  rw [h4]

/-- C4 witness: retry limit 2 with every attempt timing out gives 3
attempts, backoffs of 1000 ms and 2000 ms, and the failed record. -/
theorem c4_retries_exhausted_witness :
    processUrl 2 (fun _ => .nav_fail "timeout".data) "u".data emptyGroups =
      { record := ⟨"u".data, 0, [], false, some "timeout".data⟩
        retVal := ⟨"u".data, false, none, some "timeout".data⟩
        groups := emptyGroups
        attempts := 2 + 1
        delays := (List.range 2).map (fun k => 1000 * (k + 1)) } :=
  c4_retries_exhausted 2 (fun _ => .nav_fail "timeout".data) "u".data emptyGroups
    (fun _ => "timeout".data)
    (fun j _ => ⟨rfl, by show abortNav "timeout".data = false; decide⟩)

/-- C6 (confirmed).  A well-formed console message yields a diagnostic
record exactly when its text carries none of the generic network-abort
signals and either its severity is `"error"` or the text matches one of
the two configured known-significant patterns; every other console
message is discarded. -/
theorem c6_classifier_iff (ty tx : Str) (loc : Option Str) :
    handleConsole (.ok ty tx loc) ≠ none ↔
      abortSignal tx = false ∧ (ty = errorType ∨ knownPattern tx = true) := by
  show classifyConsole ty tx loc ≠ none ↔ _
  unfold classifyConsole
  split_ifs with h1 h2
  · simp [h1]
  · simp_all
  · simp_all

/-- C6 witness: the classification rule evaluated on a concrete
non-error console message matching the known reference-error pattern. -/
theorem c6_classifier_iff_witness :
    handleConsole (.ok "warning".data "ReferenceError: coveoua is not defined".data none) ≠
        none ↔
      abortSignal "ReferenceError: coveoua is not defined".data = false ∧
        ("warning".data = errorType ∨
          knownPattern "ReferenceError: coveoua is not defined".data = true) :=
  c6_classifier_iff "warning".data "ReferenceError: coveoua is not defined".data none

/-- C7 (confirmed).  A console event whose field extraction throws is
swallowed: the listener records nothing for it, the diagnostic list of
the attempt is the same as if the event were absent, and a page task
whose navigation succeeds still completes successfully with that list —
a malformed event never aborts the page task. -/
theorem c7_malformed_swallowed (ev : ConsoleEvent) (rL : Nat) (env : Nat → Attempt)
    (url : Str) (g : Groups) (l1 l2 : List RawEvent) :
    (consoleExtract ev = .error () → handleConsole ev = none) ∧
      collectErrors (l1 ++ .console .broken :: l2) = collectErrors (l1 ++ l2) ∧
      (env 0 = .nav_ok (l1 ++ .console .broken :: l2) →
        (processUrl rL env url g).record.success = true ∧
          (processUrl rL env url g).record.errors = collectErrors (l1 ++ l2)) := by
  refine ⟨?_, ?_, ?_⟩
  · intro h
    cases ev with
    | ok ty tx loc => cases h
    | broken => rfl
  · simp [collectErrors, classifyEvent, handleConsole, consoleExtract]
  · intro henv
    have : processUrl rL env url g = successOutcome url g 0 (l1 ++ .console .broken :: l2) := by
      cases rL <;> simp [processUrl, processUrlGo, processUrlStep, henv]
    rw [this, successOutcome]
    refine ⟨rfl, ?_⟩
    simp [collectErrors, classifyEvent, handleConsole, consoleExtract]

/-- C7 witness: a concrete malformed event inside a successful attempt. -/
theorem c7_malformed_swallowed_witness :
    handleConsole .broken = none ∧
      ((processUrl 2 (fun _ => .nav_ok [.console .broken]) "u".data
            emptyGroups).record.success = true ∧
        (processUrl 2 (fun _ => .nav_ok [.console .broken]) "u".data
            emptyGroups).record.errors = collectErrors ([] ++ [])) :=
  ⟨(c7_malformed_swallowed .broken 2 (fun _ => .nav_ok [.console .broken]) "u".data
      emptyGroups [] []).1 rfl,
    (c7_malformed_swallowed .broken 2 (fun _ => .nav_ok [.console .broken]) "u".data
      emptyGroups [] []).2.2 rfl⟩

/-- C10 (confirmed).  An uncaught-exception record carries no location
field, so its signature always ends in the `'unknown'` placeholder;
ingesting two uncaught exceptions with the same message from two pages
produces a single error group containing both pages and no other group. -/
theorem c10_uncaught_collapse (msg u1 u2 : Str) :
    (uncaughtRecord msg).locationUrl = none ∧
      classifyEvent (.uncaught msg) = some (uncaughtRecord msg) ∧
      getErrorSignature (uncaughtRecord msg) = msg ++ sigSep ++ unknownLoc ∧
      (∃ grp,
        ingestAll u2 (ingestAll u1 emptyGroups [uncaughtRecord msg]) [uncaughtRecord msg]
            (getErrorSignature (uncaughtRecord msg)) = some grp ∧
          u1 ∈ grp.pages ∧ u2 ∈ grp.pages) ∧
      (∀ s, s ≠ getErrorSignature (uncaughtRecord msg) →
        ingestAll u2 (ingestAll u1 emptyGroups [uncaughtRecord msg]) [uncaughtRecord msg]
            s = none) := by
  refine ⟨rfl, rfl, rfl, ?_, ?_⟩
  · refine ⟨{ signature := getErrorSignature (uncaughtRecord msg)
              errorText := msg
              errorLocation := unknownLoc
              pages := addPage (addPage [] u1) u2
              sample := uncaughtRecord msg }, ?_, ?_, ?_⟩
    · simp [ingestAll, ingestOne, emptyGroups, effLoc, uncaughtRecord]
    · show u1 ∈ addPage (addPage [] u1) u2
      by_cases h : u2 = u1 <;> simp [addPage, h]
    · show u2 ∈ addPage (addPage [] u1) u2
      by_cases h : u2 = u1 <;> simp [addPage, h]
  · intro s hs
    simp [ingestAll, ingestOne, emptyGroups, hs]

/-- C10 witness: two concrete pages and a concrete message. -/
theorem c10_uncaught_collapse_witness :
    (∃ grp,
      ingestAll "q".data (ingestAll "p".data emptyGroups [uncaughtRecord "boom".data])
          [uncaughtRecord "boom".data]
          (getErrorSignature (uncaughtRecord "boom".data)) = some grp ∧
        ("p".data : Str) ∈ grp.pages ∧ ("q".data : Str) ∈ grp.pages) ∧
      ingestAll "q".data (ingestAll "p".data emptyGroups [uncaughtRecord "boom".data])
          [uncaughtRecord "boom".data] "other".data = none :=
  ⟨(c10_uncaught_collapse "boom".data "p".data "q".data).2.2.2.1,
    (c10_uncaught_collapse "boom".data "p".data "q".data).2.2.2.2 "other".data (by decide)⟩

/-- One aggregation step never deletes a group and touches an existing
group only by adding the ingesting page to its page list. -/
theorem ingestOne_preserve (url : Str) (g : Groups) (e : DiagRecord) (sig : Str)
    (grp : Group) (h : g sig = some grp) :
    ∃ grp', ingestOne url g e sig = some grp' ∧
      grp'.signature = grp.signature ∧ grp'.errorText = grp.errorText ∧
      grp'.errorLocation = grp.errorLocation ∧ grp'.sample = grp.sample ∧
      grp.pages.Sublist grp'.pages ∧ ∀ u ∈ grp'.pages, u ∈ grp.pages ∨ u = url := by
  unfold ingestOne
  by_cases hs : sig = getErrorSignature e
  · subst hs
    rw [h]
    simp only [if_pos rfl]
    refine ⟨_, rfl, rfl, rfl, rfl, rfl, ?_, ?_⟩
    · unfold addPage
      split
      · exact List.Sublist.refl _
      · exact List.sublist_append_left _ _
    · intro u hu
      unfold addPage at hu
      split at hu
      · exact Or.inl hu
      · rcases List.mem_append.mp hu with h1 | h1
        · exact Or.inl h1
        · simp only [List.mem_singleton] at h1
          exact Or.inr h1
  · rw [if_neg hs, h]
    exact ⟨grp, rfl, rfl, rfl, rfl, rfl, List.Sublist.refl _, fun u hu => Or.inl hu⟩

/-- Aggregating one page's diagnostic list never deletes a group and
touches an existing group only by adding that page to its page list. -/
theorem ingestAll_preserve :
    ∀ (errors : List DiagRecord) (url : Str) (g : Groups) (sig : Str) (grp : Group),
      g sig = some grp →
      ∃ grp', ingestAll url g errors sig = some grp' ∧
        grp'.signature = grp.signature ∧ grp'.errorText = grp.errorText ∧
        grp'.errorLocation = grp.errorLocation ∧ grp'.sample = grp.sample ∧
        grp.pages.Sublist grp'.pages ∧ ∀ u ∈ grp'.pages, u ∈ grp.pages ∨ u = url := by
  intro errors
  induction errors with
  | nil =>
    intro url g sig grp h
    exact ⟨grp, h, rfl, rfl, rfl, rfl, List.Sublist.refl _, fun u hu => Or.inl hu⟩
  | cons e es ih =>
    intro url g sig grp h
    obtain ⟨grp1, h1, hs1, ht1, hl1, hm1, hp1, hu1⟩ := ingestOne_preserve url g e sig grp h
    obtain ⟨grp2, h2, hs2, ht2, hl2, hm2, hp2, hu2⟩ := ih url (ingestOne url g e) sig grp1 h1
    refine ⟨grp2, h2, hs2.trans hs1, ht2.trans ht1, hl2.trans hl1, hm2.trans hm1,
      hp1.trans hp2, ?_⟩
    intro u hu
    rcases hu2 u hu with h' | h'
    · exact hu1 u h'
    · exact Or.inr h'

/-- A signature absent after one aggregation step was absent before it,
and the ingested diagnostic does not carry it. -/
theorem ingestOne_none (url : Str) (g : Groups) (e : DiagRecord) (sig : Str)
    (h : ingestOne url g e sig = none) :
    g sig = none ∧ getErrorSignature e ≠ sig := by
  unfold ingestOne at h
  by_cases hs : sig = getErrorSignature e
  · rw [if_pos hs] at h
    cases h
  · rw [if_neg hs] at h
    exact ⟨h, fun he => hs he.symm⟩

/-- A signature absent after aggregating a page was absent before, and
none of the page's diagnostics carries it. -/
theorem ingestAll_none :
    ∀ (errors : List DiagRecord) (url : Str) (g : Groups) (sig : Str),
      ingestAll url g errors sig = none →
      g sig = none ∧ ∀ e ∈ errors, getErrorSignature e ≠ sig := by
  intro errors
  induction errors with
  | nil =>
    intro url g sig h
    exact ⟨h, fun e he => absurd he (List.not_mem_nil e)⟩
  | cons e es ih =>
    intro url g sig h
    obtain ⟨h1, h2⟩ := ih url (ingestOne url g e) sig h
    obtain ⟨h3, h4⟩ := ingestOne_none url g e sig h1
    refine ⟨h3, ?_⟩
    intro e' he'
    rcases List.mem_cons.mp he' with he' | he'
    · exact he' ▸ h4
    · exact h2 e' he'

/-- A group created while aggregating one page takes the page's first
diagnostic with its signature as sample, and its page list only holds
that page. -/
theorem ingestAll_create :
    ∀ (errors : List DiagRecord) (url : Str) (g : Groups) (sig : Str) (grp' : Group),
      g sig = none → ingestAll url g errors sig = some grp' →
      firstDiagWith sig errors = some grp'.sample ∧
        getErrorSignature grp'.sample = sig ∧ ∀ u ∈ grp'.pages, u = url := by
  intro errors
  induction errors with
  | nil =>
    intro url g sig grp' h0 h
    rw [ingestAll, List.foldl_nil] at h
    rw [h0] at h
    cases h
  | cons e es ih =>
    intro url g sig grp' h0 h
    by_cases hs : getErrorSignature e = sig
    · subst hs
      have hone : ingestOne url g e (getErrorSignature e) =
          some { signature := getErrorSignature e, errorText := e.text,
                 errorLocation := effLoc e.locationUrl,
                 pages := addPage [] url, sample := e } := by
        unfold ingestOne
        rw [h0]
        simp
      have hrest := ingestAll_preserve es url (ingestOne url g e) (getErrorSignature e) _ hone
      obtain ⟨grp2, h2, _, _, _, hm2, _, hu2⟩ := hrest
      rw [ingestAll, List.foldl_cons] at h
      rw [show (ingestAll url (ingestOne url g e) es) = (List.foldl (ingestOne url)
        (ingestOne url g e) es) from rfl] at h2
      rw [h2] at h
      cases h
      refine ⟨?_, ?_, ?_⟩
      · rw [firstDiagWith, List.find?_cons_of_pos _ (by simp)]
        rw [hm2]
      · rw [hm2]
      · intro u hu
        rcases hu2 u hu with h' | h'
        · simp [addPage] at h'
          exact h'
        · exact h'
    · have hone : ingestOne url g e sig = none := by
        unfold ingestOne
        rw [if_neg (fun hh => hs hh.symm), h0]
      rw [ingestAll, List.foldl_cons] at h
      obtain ⟨hf, hsig, hpages⟩ := ih url (ingestOne url g e) sig grp' hone h
      refine ⟨?_, hsig, hpages⟩
      rw [firstDiagWith, List.find?_cons_of_neg _ (by simp [hs])]
      exact hf

/-- Invariant of the aggregation map along a run: every group's sample
is the first ingested diagnostic with its signature, and its page list
only holds ingested urls; a signature with no group has no ingested
diagnostic. -/
theorem ingestTrace_inv :
    ∀ (calls : List (Str × List DiagRecord)) (g : Groups) (urls0 : List Str)
      (diags0 : List DiagRecord),
      (∀ sig grp, g sig = some grp →
          firstDiagWith sig diags0 = some grp.sample ∧
          getErrorSignature grp.sample = sig ∧ ∀ u ∈ grp.pages, u ∈ urls0) →
      (∀ sig, g sig = none → firstDiagWith sig diags0 = none) →
      (∀ sig grp,
          (calls.foldl (fun g c => ingestAll c.1 g c.2) g) sig = some grp →
          firstDiagWith sig (diags0 ++ ingestedDiags calls) = some grp.sample ∧
            getErrorSignature grp.sample = sig ∧
            ∀ u ∈ grp.pages, u ∈ urls0 ++ ingestedUrls calls) ∧
      (∀ sig, (calls.foldl (fun g c => ingestAll c.1 g c.2) g) sig = none →
          firstDiagWith sig (diags0 ++ ingestedDiags calls) = none) := by
  intro calls
  induction calls with
  | nil =>
    intro g urls0 diags0 hsome hnone
    simpa [ingestedDiags, ingestedUrls] using ⟨hsome, hnone⟩
  | cons c cs ih =>
    intro g urls0 diags0 hsome hnone
    have hsome1 : ∀ sig grp, ingestAll c.1 g c.2 sig = some grp →
        firstDiagWith sig (diags0 ++ c.2) = some grp.sample ∧
          getErrorSignature grp.sample = sig ∧
          ∀ u ∈ grp.pages, u ∈ urls0 ++ [c.1] := by
      intro sig grp hg
      cases hprev : g sig with
      | some grp0 =>
        obtain ⟨grp', hg', _, _, _, hm', _, hu'⟩ :=
          ingestAll_preserve c.2 c.1 g sig grp0 hprev
        rw [hg] at hg'
        obtain rfl : grp = grp' := Option.some.inj hg'
        obtain ⟨hfirst0, hsig0, hmem0⟩ := hsome sig grp0 hprev
        refine ⟨?_, ?_, ?_⟩
        · rw [firstDiagWith, List.find?_append]
          rw [firstDiagWith] at hfirst0
          rw [hfirst0, hm']
          rfl
        · rw [hm']
          exact hsig0
        · intro u hu
          rcases hu' u hu with h' | h'
          · exact List.mem_append.mpr (Or.inl (hmem0 u h'))
          · exact List.mem_append.mpr (Or.inr (by simp [h']))
      | none =>
        obtain ⟨hf, hsigc, hpagec⟩ := ingestAll_create c.2 c.1 g sig grp hprev hg
        refine ⟨?_, hsigc, ?_⟩
        · rw [firstDiagWith, List.find?_append]
          have hd0 := hnone sig hprev
          rw [firstDiagWith] at hd0 hf
          rw [hd0, hf]
          rfl
        · intro u hu
          exact List.mem_append.mpr (Or.inr (by simp [hpagec u hu]))
    have hnone1 : ∀ sig, ingestAll c.1 g c.2 sig = none →
        firstDiagWith sig (diags0 ++ c.2) = none := by
      intro sig hg
      obtain ⟨h1, h2⟩ := ingestAll_none c.2 c.1 g sig hg
      rw [firstDiagWith, List.find?_append]
      have hd0 := hnone sig h1
      rw [firstDiagWith] at hd0
      rw [hd0]
      have hc2 : c.2.find? (fun e => getErrorSignature e == sig) = none := by
        rw [List.find?_eq_none]
        intro e he
        simpa using h2 e he
      rw [hc2]
      rfl
    have := ih (ingestAll c.1 g c.2) (urls0 ++ [c.1]) (diags0 ++ c.2) hsome1 hnone1
    simpa [ingestedDiags, ingestedUrls, List.append_assoc] using this

/-- C5 (confirmed).  In the final aggregation state of any run, every
error group was created on the first ingested diagnostic carrying its
signature (that diagnostic is its sample), its affected-page list only
contains urls passed to the aggregation, and any further aggregation
call can only extend the group's page list (pages are never removed, the
size never decreases, and the identifying fields and sample — hence the
group's identity — never change). -/
theorem c5_group_lifecycle (calls : List (Str × List DiagRecord)) (sig : Str)
    (grp : Group) (h : ingestTrace calls sig = some grp) :
    firstDiagWith sig (ingestedDiags calls) = some grp.sample ∧
      getErrorSignature grp.sample = sig ∧
      (∀ u ∈ grp.pages, u ∈ ingestedUrls calls) ∧
      (∀ url errors, ∃ grp',
        ingestAll url (ingestTrace calls) errors sig = some grp' ∧
          grp'.sample = grp.sample ∧ grp'.signature = grp.signature ∧
          grp'.errorText = grp.errorText ∧ grp'.errorLocation = grp.errorLocation ∧
          grp.pages.Sublist grp'.pages ∧ grp.pages.length ≤ grp'.pages.length ∧
          ∀ u ∈ grp'.pages, u ∈ ingestedUrls calls ∨ u = url) := by
  have hinv := ingestTrace_inv calls emptyGroups [] []
    (fun sig grp h => Option.noConfusion h) (fun sig _ => rfl)
  obtain ⟨hfirst, hsig, hmem⟩ := hinv.1 sig grp h
  refine ⟨by simpa using hfirst, hsig, by simpa using hmem, ?_⟩
  intro url errors
  obtain ⟨grp', hg', hs', ht', hl', hm', hp', hu'⟩ :=
    ingestAll_preserve errors url (ingestTrace calls) sig grp h
  refine ⟨grp', hg', hm', hs', ht', hl', hp', hp'.length_le, ?_⟩
  intro u hu
  rcases hu' u hu with h' | h'
  · exact Or.inl (by simpa using hmem u h')
  · exact Or.inr h'

/-- C5 witness: the lifecycle facts for the group built by ingesting
the same diagnostic from two concrete pages. -/
theorem c5_group_lifecycle_witness :
    firstDiagWith (getErrorSignature ⟨"x".data, none, "error".data⟩)
        (ingestedDiags [("p".data, [⟨"x".data, none, "error".data⟩]),
          ("q".data, [⟨"x".data, none, "error".data⟩])]) =
      some (⟨"x".data, none, "error".data⟩ : DiagRecord) ∧
    (("p".data : Str) ∈
        ({ signature := getErrorSignature ⟨"x".data, none, "error".data⟩,
           errorText := "x".data, errorLocation := unknownLoc,
           pages := ["p".data, "q".data],
           sample := ⟨"x".data, none, "error".data⟩ } : Group).pages →
      ("p".data : Str) ∈ ingestedUrls [("p".data, [⟨"x".data, none, "error".data⟩]),
        ("q".data, [⟨"x".data, none, "error".data⟩])]) :=
  ⟨(c5_group_lifecycle
      [("p".data, [⟨"x".data, none, "error".data⟩]),
        ("q".data, [⟨"x".data, none, "error".data⟩])]
      (getErrorSignature ⟨"x".data, none, "error".data⟩)
      { signature := getErrorSignature ⟨"x".data, none, "error".data⟩,
        errorText := "x".data, errorLocation := unknownLoc,
        pages := ["p".data, "q".data],
        sample := ⟨"x".data, none, "error".data⟩ }
      (by decide)).1,
    (c5_group_lifecycle
      [("p".data, [⟨"x".data, none, "error".data⟩]),
        ("q".data, [⟨"x".data, none, "error".data⟩])]
      (getErrorSignature ⟨"x".data, none, "error".data⟩)
      { signature := getErrorSignature ⟨"x".data, none, "error".data⟩,
        errorText := "x".data, errorLocation := unknownLoc,
        pages := ["p".data, "q".data],
        sample := ⟨"x".data, none, "error".data⟩ }
      (by decide)).2.2.1 "p".data⟩

/-- The slicing loop partitions a list: the chunks concatenate back to
the input. -/
theorem chunksOf_flatten {α : Type} :
    ∀ (n : Nat) (l : List α), 0 < n → (chunksOf n l).flatten = l := by
  intro n l
  induction n, l using chunksOf.induct with
  | case1 m =>
    intro _
    simp [chunksOf]
  | case2 x xs =>
    intro h
    omega
  | case3 m x xs ih =>
    intro _
    rw [chunksOf]
    simp only [List.flatten_cons, ih (by omega)]
    exact List.take_append_drop _ _

/-- Every chunk produced by the slicing loop is nonempty and no longer
than the slice size. -/
theorem chunksOf_mem_length {α : Type} :
    ∀ (n : Nat) (l : List α), 0 < n →
      ∀ c ∈ chunksOf n l, c ≠ [] ∧ c.length ≤ n := by
  intro n l
  induction n, l using chunksOf.induct with
  | case1 m =>
    intro _ c hc
    simp [chunksOf] at hc
  | case2 x xs =>
    intro h
    omega
  | case3 m x xs ih =>
    intro _ c hc
    rw [chunksOf] at hc
    rcases List.mem_cons.mp hc with hc | hc
    · subst hc
      refine ⟨by simp, ?_⟩
      simp
    · exact ih (by omega) c hc

/-- The slicing loop yields no chunk exactly on empty input. -/
theorem chunksOf_eq_nil_iff {α : Type} (n : Nat) (l : List α) :
    chunksOf (n + 1) l = [] ↔ l = [] := by
  cases l with
  | nil => simp [chunksOf]
  | cons x xs => simp [chunksOf]

/-- Every chunk except possibly the last is full. -/
theorem chunksOf_dropLast_length {α : Type} :
    ∀ (n : Nat) (l : List α), 0 < n →
      ∀ c ∈ (chunksOf n l).dropLast, c.length = n := by
  intro n l
  induction n, l using chunksOf.induct with
  | case1 m =>
    intro _ c hc
    simp [chunksOf] at hc
  | case2 x xs =>
    intro h
    omega
  | case3 m x xs ih =>
    intro _ c hc
    rw [chunksOf] at hc
    cases hrest : chunksOf (m + 1) ((x :: xs).drop (m + 1)) with
    | nil =>
      rw [hrest] at hc
      simp at hc
    | cons c0 cs0 =>
      rw [hrest] at hc
      rw [List.dropLast_cons_of_ne_nil (by simp)] at hc
      rcases List.mem_cons.mp hc with hc | hc
      · subst hc
        have hne : (x :: xs).drop (m + 1) ≠ [] := by
          intro hnil
          rw [hnil] at hrest
          simp [chunksOf] at hrest
        have hlen : m + 1 < (x :: xs).length := by
          by_contra hle
          exact hne (List.drop_eq_nil_of_le (by omega))
        simp only [List.length_take, List.length_cons] at hlen ⊢
        omega
      · rw [← hrest] at hc
        exact ih (by omega) c hc

/-- Each batch contributes the settled results of exactly its urls, in
order: the whole chunk's result sequence is the input-ordered map of the
per-url results, so one url's failure never suppresses a sibling's
entry. -/
theorem runBatches_fst (resOf : Str → RetVal) :
    ∀ batches : List (List Str),
      (runBatches resOf batches).1 = batches.flatten.map resOf := by
  intro batches
  induction batches with
  | nil => rfl
  | cons b rest ih =>
    cases rest with
    | nil => simp [runBatches]
    | cons b' rest' =>
      simp [runBatches, ih]

/-- The batch loop inserts exactly one cooldown between consecutive
batches and none after the last. -/
theorem runBatches_cooldowns (resOf : Str → RetVal) :
    ∀ batches : List (List Str),
      (runBatches resOf batches).2.countP (fun a => a == BatchAction.cooldown) =
        batches.length - 1 := by
  intro batches
  induction batches with
  | nil => rfl
  | cons b rest ih =>
    cases rest with
    | nil =>
      simp [runBatches, List.countP_map, Function.comp_def, List.countP_false]
    | cons b' rest' =>
      rw [runBatches]
      simp only [List.countP_append, List.countP_cons]
      simp only [List.length_cons] at ih ⊢
      rw [show ((runBatches resOf (b' :: rest')).2.countP
        (fun a => a == BatchAction.cooldown)) = rest'.length + 1 - 1 from ih]
      simp [List.countP_map, Function.comp_def, List.countP_false]

/-- C8 (confirmed).  The batch scheduler partitions a chunk into
consecutive nonempty groups of at most `maxConcurrent` urls (all full
except possibly the last), produces exactly the input-ordered settled
result of every url (so a failing url never aborts or drops a sibling's
result), and puts one fixed cooldown between consecutive groups and none
after the last. -/
theorem c8_batch_scheduler (mc : Nat) (resOf : Str → RetVal) (chunk : List Str)
    (hmc : 0 < mc) :
    (chunksOf mc chunk).flatten = chunk ∧
      (∀ b ∈ chunksOf mc chunk, b ≠ [] ∧ b.length ≤ mc) ∧
      (∀ b ∈ (chunksOf mc chunk).dropLast, b.length = mc) ∧
      (runChunk mc resOf chunk).1 = chunk.map resOf ∧
      (runChunk mc resOf chunk).2.countP (fun a => a == BatchAction.cooldown) =
        (chunksOf mc chunk).length - 1 := by
  refine ⟨chunksOf_flatten mc chunk hmc, chunksOf_mem_length mc chunk hmc,
    chunksOf_dropLast_length mc chunk hmc, ?_, runBatches_cooldowns resOf _⟩
  rw [runChunk, runBatches_fst, chunksOf_flatten mc chunk hmc]

/-- C8 witness: chunk of three urls with concurrency 2. -/
theorem c8_batch_scheduler_witness :
    0 < 2 ∧
      ((chunksOf 2 ["a".data, "b".data, "c".data]).flatten =
          ["a".data, "b".data, "c".data] ∧
        (∀ b ∈ chunksOf 2 ["a".data, "b".data, "c".data], b ≠ [] ∧ b.length ≤ 2) ∧
        (∀ b ∈ (chunksOf 2 ["a".data, "b".data, "c".data]).dropLast, b.length = 2) ∧
        (runChunk 2 (fun u => ⟨u, true, some 0, none⟩)
            ["a".data, "b".data, "c".data]).1 =
          ["a".data, "b".data, "c".data].map (fun u => ⟨u, true, some 0, none⟩) ∧
        (runChunk 2 (fun u => ⟨u, true, some 0, none⟩)
              ["a".data, "b".data, "c".data]).2.countP
            (fun a => a == BatchAction.cooldown) =
          (chunksOf 2 ["a".data, "b".data, "c".data]).length - 1) :=
  ⟨by omega,
    c8_batch_scheduler 2 (fun u => ⟨u, true, some 0, none⟩)
      ["a".data, "b".data, "c".data] (by omega)⟩

/-- Actions of sessions with a higher index never feed instance `i`. -/
theorem sessionLoop_fed_zero (behs : Nat → ChunkBeh) :
    ∀ (cs : List (List Str)) (i0 i : Nat), i < i0 →
      (sessionLoop behs i0 cs).countP (isFedTo i) = 0 := by
  intro cs
  induction cs with
  | nil =>
    intro i0 i _
    rfl
  | cons c cs' ih =>
    intro i0 i hlt
    rw [sessionLoop, List.countP_append, ih (i0 + 1) i (by omega)]
    have hne : (i0 == i) = false := by
      simp only [beq_eq_false_iff_ne]
      omega
    simp [sessionTrace, List.countP_cons, List.countP_append, List.countP_map,
      Function.comp_def, isFedTo, hne]

/-- Each browser instance of the session loop is fed at most as many
urls as one chunk holds. -/
theorem sessionLoop_fed_bound (behs : Nat → ChunkBeh) :
    ∀ (cs : List (List Str)) (i0 : Nat),
      (∀ c ∈ cs, c.length ≤ BROWSER_ROTATION_LIMIT) → ∀ i,
        (sessionLoop behs i0 cs).countP (isFedTo i) ≤ BROWSER_ROTATION_LIMIT := by
  intro cs
  induction cs with
  | nil =>
    intro i0 _ i
    simp [sessionLoop, BROWSER_ROTATION_LIMIT]
  | cons c cs' ih =>
    intro i0 hlen i
    rw [sessionLoop, List.countP_append]
    by_cases heq : i0 = i
    · subst heq
      have hrest : (sessionLoop behs (i0 + 1) cs').countP (isFedTo i0) = 0 :=
        sessionLoop_fed_zero behs cs' (i0 + 1) i0 (by omega)
      rw [hrest]
      have hfeds : (sessionTrace i0 c (behs i0)).countP (isFedTo i0) =
          (chunkFeds c (behs i0)).length := by
        simp [sessionTrace, List.countP_cons, List.countP_append, List.countP_map,
          Function.comp_def, isFedTo, List.countP_true]
      rw [hfeds]
      have hge : (chunkFeds c (behs i0)).length ≤ c.length := by
        cases hb : behs i0 with
        | ok => simp [chunkFeds]
        | throwAfter k => simp [chunkFeds]
      have := hlen c (List.mem_cons_self c cs')
      omega
    · have hseg : (sessionTrace i0 c (behs i0)).countP (isFedTo i) = 0 := by
        have hne : (i0 == i) = false := by
          simp only [beq_eq_false_iff_ne]
          exact heq
        simp [sessionTrace, List.countP_cons, List.countP_append, List.countP_map,
          Function.comp_def, isFedTo, hne]
      rw [hseg]
      have := ih (i0 + 1) (fun c' hc' => hlen c' (List.mem_cons_of_mem c hc')) i
      omega

/-- Every browser instance launched by the session loop is closed,
whatever the chunk behaviours (including a thrown chunk body). -/
theorem sessionLoop_close (behs : Nat → ChunkBeh) :
    ∀ (cs : List (List Str)) (i0 i : Nat),
      SessAction.launch i ∈ sessionLoop behs i0 cs →
      SessAction.close i ∈ sessionLoop behs i0 cs := by
  intro cs
  induction cs with
  | nil =>
    intro i0 i h
    simp [sessionLoop] at h
  | cons c cs' ih =>
    intro i0 i h
    rw [sessionLoop] at h ⊢
    rcases List.mem_append.mp h with h | h
    · refine List.mem_append.mpr (Or.inl ?_)
      rw [sessionTrace] at h ⊢
      rcases List.mem_cons.mp h with h | h
      · obtain rfl : i = i0 := by
          injection h.symm with h'
          exact h'.symm
        simp
      · rcases List.mem_append.mp h with h | h
        · exfalso
          obtain ⟨u, _, hu⟩ := List.mem_map.mp h
          cases hu
        · simp only [List.mem_singleton] at h
          cases h
    · exact List.mem_append.mpr (Or.inr (ih (i0 + 1) i h))

/-- C9 (confirmed).  Over any url list and any chunk behaviours
(including chunk bodies that throw), each browser instance of
`processUrls` is fed at most `BROWSER_ROTATION_LIMIT` (50) urls, and an
instance that is launched is always closed — the `finally` teardown runs
on every exit path. -/
theorem c9_session_rotation (urls : List Str) (behs : Nat → ChunkBeh) (i : Nat) :
    (processUrlsTrace urls behs).countP (isFedTo i) ≤ BROWSER_ROTATION_LIMIT ∧
      (SessAction.launch i ∈ processUrlsTrace urls behs →
        SessAction.close i ∈ processUrlsTrace urls behs) := by
  constructor
  · exact sessionLoop_fed_bound behs _ 0
      (fun c hc =>
        (chunksOf_mem_length BROWSER_ROTATION_LIMIT urls (by norm_num [BROWSER_ROTATION_LIMIT])
          c hc).2) i
  · exact sessionLoop_close behs _ 0 i

/-- Evaluating the chunking loop on a short input: one single chunk. -/
theorem chunksOf_of_short {α : Type} (n : Nat) (l : List α)
    (hn : 0 < n) (hlen : l.length ≤ n) (hne : l ≠ []) : chunksOf n l = [l] := by
  obtain ⟨m, rfl⟩ : ∃ m, n = m + 1 := ⟨n - 1, by omega⟩
  cases l with
  | nil => exact absurd rfl hne
  | cons x xs =>
    rw [chunksOf]
    rw [List.take_of_length_le hlen, List.drop_eq_nil_of_le hlen]
    simp [chunksOf]

/-- C9 witness: a single url whose chunk body throws immediately; the
browser is still closed. -/
theorem c9_session_rotation_witness :
    (processUrlsTrace ["u".data] (fun _ => .throwAfter 0)).countP (isFedTo 0) ≤
        BROWSER_ROTATION_LIMIT ∧
      SessAction.close 0 ∈ processUrlsTrace ["u".data] (fun _ => .throwAfter 0) :=
  ⟨(c9_session_rotation ["u".data] (fun _ => .throwAfter 0) 0).1,
    (c9_session_rotation ["u".data] (fun _ => .throwAfter 0) 0).2 (by
      rw [processUrlsTrace,
        chunksOf_of_short BROWSER_ROTATION_LIMIT ["u".data]
          (by norm_num [BROWSER_ROTATION_LIMIT])
          (by norm_num [BROWSER_ROTATION_LIMIT]) (by simp)]
      simp [sessionLoop, sessionTrace, chunkFeds])⟩

end CEM
